import Mathlib

/-!
Shallow embedding of `src/main.cpp`: a uniform dispatch interface over
heterogeneous elementwise "reactions" applied to a buffer of scalars.

Buffers (`std::vector<double>`) are modelled as `List ℚ` with exact
arithmetic, matching the spec's idealized per-element contracts
(`x ← x * a`, `x ← x + b`).  The SYCL `parallel_for` over the index range
`0..N-1` is modelled two ways: as the per-index map it computes
(`ReactionBase.react`), and as a sequential interleaving of the individual
per-element updates in an arbitrary schedule order (`runSchedule`), used to
state determinism under parallel execution.
-/

/-- Device data for reaction A: one scalar factor `a`. -/
structure DeviceReactionA where
  a : ℚ
deriving DecidableEq

/-- `DeviceReactionA::apply`: `d *= a`. -/
def DeviceReactionA.apply (self : DeviceReactionA) (d : ℚ) : ℚ :=
  d * self.a

/-- Device data for reaction B: one integer offset `b`. -/
structure DeviceReactionB where
  b : ℤ
deriving DecidableEq

/-- `DeviceReactionB::apply`: `d += b`. -/
def DeviceReactionB.apply (self : DeviceReactionB) (d : ℚ) : ℚ :=
  d + (self.b : ℚ)

/-- `ReactionBase<D>::react`: snapshots the device data, then runs a
`parallel_for` over `sycl::range<1>(N)` with `N = io.size()`, each index `id`
performing `device_type.apply(a_io[id])`.  The completed kernel leaves element
`id` holding `apply` of its previous value. -/
def ReactionBase.react (device_apply : ℚ → ℚ) (io : List ℚ) : List ℚ :=
  (List.range io.length).map fun id => device_apply (io.getD id 0)

/-- `ReactionA`: owns a `DeviceReactionA`. -/
structure ReactionA where
  data : DeviceReactionA

/-- `ReactionA::get_device_data`. -/
def ReactionA.get_device_data (self : ReactionA) : DeviceReactionA :=
  self.data

/-- The constructor `ReactionA(const double a)`. -/
def ReactionA.ofParam (a : ℚ) : ReactionA :=
  { data := { a := a } }

/-- `ReactionA::react`, i.e. `ReactionBase<ReactionA>::react` instantiated at
the device data owned by this reaction. -/
def ReactionA.react (self : ReactionA) (io : List ℚ) : List ℚ :=
  ReactionBase.react self.get_device_data.apply io

/-- `ReactionB`: owns a `DeviceReactionB`. -/
structure ReactionB where
  data : DeviceReactionB

/-- `ReactionB::get_device_data`. -/
def ReactionB.get_device_data (self : ReactionB) : DeviceReactionB :=
  self.data

/-- The constructor `ReactionB(const int b)`. -/
def ReactionB.ofParam (b : ℤ) : ReactionB :=
  { data := { b := b } }

/-- `ReactionB::react`, i.e. `ReactionBase<ReactionB>::react` instantiated at
the device data owned by this reaction. -/
def ReactionB.react (self : ReactionB) (io : List ℚ) : List ℚ :=
  ReactionBase.react self.get_device_data.apply io

/-- The dynamic type held behind a `Reaction` handle: the plain base object
(whose virtual `react` has an empty body), or one of the two derived
reactions whose `react` is the `ReactionBase` override. -/
inductive Reaction where
  | base : Reaction
  | ofA (r : ReactionA) : Reaction
  | ofB (r : ReactionB) : Reaction

/-- Virtual dispatch of `Reaction::react`: the base body does nothing; a
derived object runs its `ReactionBase` override. -/
def Reaction.react : Reaction → List ℚ → List ℚ
  | .base, io => io
  | .ofA r, io => r.react io
  | .ofB r, io => r.react io

/-- A concrete reaction variant, as produced by `std::make_shared<REACTION>`
inside `make_reaction` before the cast to the base type. -/
inductive ConcreteReaction where
  | A (r : ReactionA) : ConcreteReaction
  | B (r : ReactionB) : ConcreteReaction

/-- Invoking `react` directly on the concrete object (no handle involved). -/
def ConcreteReaction.react : ConcreteReaction → List ℚ → List ℚ
  | .A r, io => r.react io
  | .B r, io => r.react io

/-- `std::dynamic_pointer_cast<Reaction>`: yields the base-typed handle when
the dynamic type derives from `Reaction`, and null (`none`) otherwise.  Both
concrete variants inherit from `Reaction` through `ReactionBase`. -/
def dynamic_pointer_cast : ConcreteReaction → Option Reaction
  | .A r => some (.ofA r)
  | .B r => some (.ofB r)

/-- `make_reaction<REACTION>(args...)`: builds the concrete object and casts
it to a shared base-type handle. -/
def make_reaction (c : ConcreteReaction) : Option Reaction :=
  dynamic_pointer_cast c

/-- One task of the parallel kernel: element `id` of the buffer is replaced by
`device_apply` of its previous value; no other element is touched. -/
def applyAt (device_apply : ℚ → ℚ) (io : List ℚ) (id : ℕ) : List ℚ :=
  io.set id (device_apply (io.getD id 0))

/-- Running the kernel tasks sequentially in the order given by `sched`:
this models one possible execution order chosen by the parallel executor. -/
def runSchedule (device_apply : ℚ → ℚ) (io : List ℚ) (sched : List ℕ) :
    List ℚ :=
  sched.foldl (applyAt device_apply) io

/-- The driver's initial buffer: `std::iota` over 32 doubles starting at 0. -/
def d0 : List ℚ :=
  (List.range 32).map fun i => (i : ℚ)

-- ------------------- general lemmas about the embedding -------------------

theorem ReactionBase.react_eq_map (f : ℚ → ℚ) (io : List ℚ) :
    ReactionBase.react f io = io.map f := by
  apply List.ext_getElem
  · simp [ReactionBase.react]
  · intro i h₁ h₂
    have hi : i < io.length := by simpa using h₂
    simp only [ReactionBase.react, List.getElem_map, List.getElem_range]
    rw [List.getD_eq_getElem _ _ hi]

theorem ReactionBase.react_length (f : ℚ → ℚ) (io : List ℚ) :
    (ReactionBase.react f io).length = io.length := by
  rw [ReactionBase.react_eq_map, List.length_map]

theorem runSchedule_length (f : ℚ → ℚ) (io : List ℚ) (sched : List ℕ) :
    (runSchedule f io sched).length = io.length := by
  induction sched generalizing io with
  | nil => rfl
  | cons a s ih =>
      simp only [runSchedule, List.foldl_cons] at *
      rw [ih, applyAt, List.length_set]

theorem runSchedule_getD (f : ℚ → ℚ) (io : List ℚ) (sched : List ℕ)
    (hnd : sched.Nodup) (hlt : ∀ x ∈ sched, x < io.length) (i : ℕ) :
    (runSchedule f io sched).getD i 0 =
      if i ∈ sched then f (io.getD i 0) else io.getD i 0 := by
  induction sched generalizing io with
  | nil => simp [runSchedule]
  | cons a s ih =>
      have hnd' : s.Nodup := hnd.of_cons
      have hna : a ∉ s := by
        simpa using (List.nodup_cons.mp hnd).1
      have ha : a < io.length := hlt a (List.mem_cons_self a s)
      have hlt' : ∀ x ∈ s, x < (applyAt f io a).length := by
        intro x hx
        rw [applyAt, List.length_set]
        exact hlt x (List.mem_cons_of_mem a hx)
      have hstep : runSchedule f io (a :: s) = runSchedule f (applyAt f io a) s := rfl
      rw [hstep, ih (applyAt f io a) hnd' hlt']
      by_cases hia : i = a
      · subst hia
        rw [if_neg hna, if_pos (List.mem_cons_self i s)]
        rw [applyAt, List.getD_eq_getElem _ _ (by rw [List.length_set]; exact ha)]
        rw [List.getElem_set_self]
      · have happ : (applyAt f io a).getD i 0 = io.getD i 0 := by
          rw [applyAt]
          by_cases hi : i < io.length
          · rw [List.getD_eq_getElem _ _ (by rw [List.length_set]; exact hi),
              List.getElem_set_ne (fun h => hia h.symm),
              List.getD_eq_getElem _ _ hi]
          · rw [List.getD_eq_default _ _ (by rw [List.length_set]; exact Nat.le_of_not_lt hi),
              List.getD_eq_default _ _ (Nat.le_of_not_lt hi)]
        by_cases his : i ∈ s
        · rw [if_pos his, if_pos (List.mem_cons_of_mem a his), happ]
        · have hnot : i ∉ a :: s := by
            intro hmem
            rcases List.mem_cons.mp hmem with h | h
            · exact hia h
            · exact his h
          rw [if_neg his, if_neg hnot, happ]

theorem runSchedule_perm_range (f : ℚ → ℚ) (io : List ℚ) (sched : List ℕ)
    (hp : sched.Perm (List.range io.length)) :
    runSchedule f io sched = ReactionBase.react f io := by
  have hnd : sched.Nodup := hp.symm.nodup_iff.mp (List.nodup_range _)
  have hmem : ∀ x, x ∈ sched ↔ x < io.length := by
    intro x
    rw [hp.mem_iff, List.mem_range]
  rw [ReactionBase.react_eq_map]
  apply List.ext_getElem
  · rw [runSchedule_length, List.length_map]
  · intro i h₁ h₂
    have hi : i < io.length := by rwa [runSchedule_length] at h₁
    have hg := runSchedule_getD f io sched hnd (fun x hx => (hmem x).mp hx) i
    rw [if_pos ((hmem i).mpr hi)] at hg
    rw [List.getD_eq_getElem _ _ h₁] at hg
    rw [List.getD_eq_getElem _ _ hi] at hg
    rw [hg, List.getElem_map]

theorem reactionA_react_as_map (a : ℚ) (S : List ℚ) :
    (ReactionA.ofParam a).react S = S.map fun x => x * a := by
  rw [ReactionA.react, ReactionBase.react_eq_map]
  rfl

theorem reactionB_react_as_map (b : ℤ) (S : List ℚ) :
    (ReactionB.ofParam b).react S = S.map fun x => x + (b : ℚ) := by
  rw [ReactionB.react, ReactionBase.react_eq_map]
  rfl

/-- The device-side closure captured by the kernel of a concrete reaction. -/
def ConcreteReaction.deviceApply : ConcreteReaction → ℚ → ℚ
  | .A r => r.get_device_data.apply
  | .B r => r.get_device_data.apply

theorem ConcreteReaction.react_eq_base (c : ConcreteReaction) (io : List ℚ) :
    c.react io = ReactionBase.react c.deviceApply io := by
  cases c <;> rfl

/-- State-threaded form of virtual `react`: the body of
`ReactionBase::react` reads `get_device_data()` and never assigns to any
member, so the reaction object after the call is the object before it. -/
def Reaction.reactState (r : Reaction) (io : List ℚ) : Reaction × List ℚ :=
  match r with
  | .base => (.base, io)
  | .ofA s => (.ofA s, s.react io)
  | .ofB s => (.ofB s, s.react io)

-- ------------------------------ claims ------------------------------

/-- C1: for every finite sequence `S` of scalars and every factor `a`,
`react` of the multiply reaction constructed with `a` yields a sequence of
the same length whose element `i` equals `S[i] * a` for every index `i`. -/
theorem multiply_react_spec (S : List ℚ) (a : ℚ) :
    ((ReactionA.ofParam a).react S).length = S.length ∧
    ∀ i, i < S.length →
      ((ReactionA.ofParam a).react S).getD i 0 = S.getD i 0 * a := by
  rw [reactionA_react_as_map]
  refine ⟨List.length_map _ _, fun i hi => ?_⟩
  rw [List.getD_eq_getElem _ _ (by rw [List.length_map]; exact hi),
    List.getElem_map, List.getD_eq_getElem _ _ hi]

theorem multiply_react_spec_witness :
    ((ReactionA.ofParam 3).react [2, 5]).getD 1 0 = List.getD [2, 5] 1 0 * 3 :=
  (multiply_react_spec [2, 5] 3).2 1 (by decide)

/-- C2: for every finite sequence `S` of scalars and every integer offset
`b`, `react` of the add reaction constructed with `b` yields a sequence of
the same length whose element `i` equals `S[i] + b` for every index `i`. -/
theorem add_react_spec (S : List ℚ) (b : ℤ) :
    ((ReactionB.ofParam b).react S).length = S.length ∧
    ∀ i, i < S.length →
      ((ReactionB.ofParam b).react S).getD i 0 = S.getD i 0 + (b : ℚ) := by
  rw [reactionB_react_as_map]
  refine ⟨List.length_map _ _, fun i hi => ?_⟩
  rw [List.getD_eq_getElem _ _ (by rw [List.length_map]; exact hi),
    List.getElem_map, List.getD_eq_getElem _ _ hi]

theorem add_react_spec_witness :
    ((ReactionB.ofParam 7).react [2, 5]).getD 0 0 = List.getD [2, 5] 0 0 + ((7 : ℤ) : ℚ) :=
  (add_react_spec [2, 5] 7).2 0 (by decide)

/-- C3: for every buffer and every concrete variant, `react` through the
polymorphic handle produced by `make_reaction` gives exactly the buffer that
direct invocation on the concrete object gives; in particular the
heterogeneous collection with the multiply reaction at factor 0.1 and the add
reaction at offset 2, applied in sequence to the iota buffer of 32 elements
through handles, equals the two direct concrete calls in the same order. -/
theorem handle_refines_concrete :
    (∀ (c : ConcreteReaction) (io : List ℚ) (h : Reaction),
        make_reaction c = some h → h.react io = c.react io) ∧
    (∃ h₁ h₂ : Reaction,
        make_reaction (.A (ReactionA.ofParam 0.1)) = some h₁ ∧
        make_reaction (.B (ReactionB.ofParam 2)) = some h₂ ∧
        h₂.react (h₁.react d0) =
          (ReactionB.ofParam 2).react ((ReactionA.ofParam 0.1).react d0)) := by
  constructor
  · intro c io h hmk
    cases c <;> (cases Option.some.injEq .. ▸ hmk) <;> rfl
  · exact ⟨.ofA (ReactionA.ofParam 0.1), .ofB (ReactionB.ofParam 2), rfl, rfl, rfl⟩

theorem handle_refines_concrete_witness :
    Reaction.react (.ofA (ReactionA.ofParam 2)) [1, 4] =
      ConcreteReaction.react (.A (ReactionA.ofParam 2)) [1, 4] :=
  handle_refines_concrete.1 (.A (ReactionA.ofParam 2)) [1, 4]
    (.ofA (ReactionA.ofParam 2)) rfl

/-- C4: applying the multiply reaction with factor `a` and then the add
reaction with offset `b` equals mapping the composed transform
`x ↦ x * a + b` over the sequence: multiply first, then add. -/
theorem compose_multiply_then_add (S : List ℚ) (a : ℚ) (b : ℤ) :
    (ReactionB.ofParam b).react ((ReactionA.ofParam a).react S) =
      S.map fun x => x * a + (b : ℚ) := by
  rw [reactionA_react_as_map, reactionB_react_as_map, List.map_map]
  rfl

/-- C5: every reaction variant applied to the empty sequence performs no
mutation and leaves the sequence empty. -/
theorem react_empty_noop (r : Reaction) : r.react [] = [] := by
  cases r <;> rfl

/-- C6: on the iota buffer 0,1,...,31, the multiply reaction with factor 0.1
yields exactly 0.0, 0.1, ..., 3.1, and the add reaction with offset 2 applied
next yields exactly 2.0, 2.1, ..., 5.1. -/
theorem driver_scenario_values :
    (ReactionA.ofParam 0.1).react d0 =
      [0, 0.1, 0.2, 0.3, 0.4, 0.5, 0.6, 0.7, 0.8, 0.9, 1.0, 1.1, 1.2, 1.3,
       1.4, 1.5, 1.6, 1.7, 1.8, 1.9, 2.0, 2.1, 2.2, 2.3, 2.4, 2.5, 2.6, 2.7,
       2.8, 2.9, 3.0, 3.1] ∧
    (ReactionB.ofParam 2).react ((ReactionA.ofParam 0.1).react d0) =
      [2.0, 2.1, 2.2, 2.3, 2.4, 2.5, 2.6, 2.7, 2.8, 2.9, 3.0, 3.1, 3.2, 3.3,
       3.4, 3.5, 3.6, 3.7, 3.8, 3.9, 4.0, 4.1, 4.2, 4.3, 4.4, 4.5, 4.6, 4.7,
       4.8, 4.9, 5.0, 5.1] := by
  have hd0 : d0 =
      [0, 1, 2, 3, 4, 5, 6, 7, 8, 9, 10, 11, 12, 13, 14, 15, 16, 17, 18, 19,
       20, 21, 22, 23, 24, 25, 26, 27, 28, 29, 30, 31] := by
    simp [d0, List.range_succ]
  constructor
  · rw [reactionA_react_as_map, hd0]
    norm_num
  · rw [reactionB_react_as_map, reactionA_react_as_map, hd0]
    norm_num

/-- C7: one `react` invocation leaves the buffer length unchanged for every
variant, and the reaction object (hence its owned parameters) is the same
after the call, so the only effect of a call visible to a later call is the
buffer values it leaves behind. -/
theorem react_preserves_length_and_params (r : Reaction) (io : List ℚ) :
    ((r.reactState io).2).length = io.length ∧
    (r.reactState io).1 = r ∧
    (r.reactState io).2 = r.react io := by
  cases r with
  | base => exact ⟨rfl, rfl, rfl⟩
  | ofA s =>
      exact ⟨ReactionBase.react_length _ _, rfl, rfl⟩
  | ofB s =>
      exact ⟨ReactionBase.react_length _ _, rfl, rfl⟩

/-- C8: the handle factory never fails: for every concrete variant the
dynamic cast inside `make_reaction` succeeds, the returned handle is non-null,
and `react` on the handle is callable, behaving as on the concrete object. -/
theorem make_reaction_total (c : ConcreteReaction) :
    ∃ h : Reaction, make_reaction c = some h ∧
      ∀ io : List ℚ, h.react io = c.react io := by
  cases c with
  | A r => exact ⟨.ofA r, rfl, fun io => rfl⟩
  | B r => exact ⟨.ofB r, rfl, fun io => rfl⟩

/-- C9: for a fixed buffer and fixed device parameters, running the kernel
tasks in any two execution orders (any permutations of the index range, as a
parallel executor with any number of workers might choose) produces identical
final buffer contents, equal to the sequential elementwise result, because
each task reads and writes only its own element. -/
theorem react_deterministic_under_schedules (io : List ℚ)
    (c : ConcreteReaction) (s₁ s₂ : List ℕ)
    (h₁ : s₁.Perm (List.range io.length))
    (h₂ : s₂.Perm (List.range io.length)) :
    runSchedule c.deviceApply io s₁ = runSchedule c.deviceApply io s₂ ∧
    runSchedule c.deviceApply io s₁ = c.react io := by
  rw [runSchedule_perm_range _ _ _ h₁, runSchedule_perm_range _ _ _ h₂,
    ConcreteReaction.react_eq_base]
  exact ⟨rfl, rfl⟩

theorem react_deterministic_under_schedules_witness :
    runSchedule (ConcreteReaction.deviceApply (.A (ReactionA.ofParam 2)))
        [1, 2, 3] [2, 0, 1] =
      runSchedule (ConcreteReaction.deviceApply (.A (ReactionA.ofParam 2)))
        [1, 2, 3] [0, 1, 2] ∧
    runSchedule (ConcreteReaction.deviceApply (.A (ReactionA.ofParam 2)))
        [1, 2, 3] [2, 0, 1] =
      ConcreteReaction.react (.A (ReactionA.ofParam 2)) [1, 2, 3] :=
  react_deterministic_under_schedules [1, 2, 3] (.A (ReactionA.ofParam 2))
    [2, 0, 1] [0, 1, 2] (by decide) (by decide)

/-- C10: the base `Reaction::react` is a non-pure virtual with an empty body,
so invoking `react` on a plain base object submits nothing and leaves every
element of the buffer unchanged. -/
theorem base_react_noop (io : List ℚ) :
    Reaction.react .base io = io ∧
    ∀ i : ℕ, (Reaction.react .base io).getD i 0 = io.getD i 0 :=
  ⟨rfl, fun _ => rfl⟩
